import Mathlib

/-!
Verification development for the `ado_wrapper` state-managed resource layer.

The definitions below are a shallow embedding of
`src/ado_wrapper/state_managed_abc.py` (the JSON codec
`recursively_convert_to_json` / `recursively_convert_from_json` and the
generic lifecycle methods of `StateManagedResource`), together with the
collaborators those methods use.  Collaborators whose source files are not
part of the repository snapshot (`utils.py`, `errors.py`, `state_manager.py`,
`plan_resources/plan_resource.py`) are modelled from the specification and
marked as such in their doc comments.

Python runtime values that can appear as dataclass attribute values are
modelled by `PyVal`; Python `datetime` objects are modelled by their
ISO-8601 representation, for which `isoformat` / `fromisoformat` are exact
inverses.
-/

/-- Model of a Python `datetime` value, identified by its ISO-8601 string
(`isoformat` and `fromisoformat` are mutually inverse on real datetimes, so
the ISO string determines the value). -/
structure Datetime where
  iso : String
deriving DecidableEq, Repr

/-- Model of the Python runtime values stored in resource dataclass fields:
strings, booleans, integers, `None`, `datetime`s, lists, dicts, and nested
resource instances (a resource instance is its class name plus its fields in
declaration order). -/
inductive PyVal where
  | vStr (s : String)
  | vBool (b : Bool)
  | vInt (n : Int)
  | vNone
  | vDatetime (d : Datetime)
  | vList (xs : List PyVal)
  | vDict (entries : List (String × PyVal))
  | vRes (className : String) (flds : List (String × PyVal))

/-- Python `str()` on scalar values (`str(True) = "True"`, `str(None) = "None"`,
etc.).  Container values are handled by the dedicated codec branches before the
`str` fallback is reached, so their rendering here (Python's `repr`-based
rendering) is never exercised by the codec; it is included for totality. -/
def pyScalarStr : PyVal → String
  | .vStr s => s
  | .vBool b => if b then "True" else "False"
  | .vInt n => toString n
  | .vNone => "None"
  | .vDatetime d => d.iso.replace "T" " "
  | .vList _ => "[...]"
  | .vDict _ => "\x7b...\x7d"
  | .vRes c _ => c ++ "(...)"

/-- Python truthiness (`bool(x)`), used by `Repo.from_request_payload` for
`bool(data.get("isDisabled", False))`. -/
def pyBool : PyVal → Bool
  | .vStr s => s ≠ ""
  | .vBool b => b
  | .vInt n => n ≠ 0
  | .vNone => false
  | .vDatetime _ => true
  | .vList xs => !xs.isEmpty
  | .vDict d => !d.isEmpty
  | .vRes _ _ => true

/-- Python `s.split("::")` on the character list of a string: leftmost-first
splitting on the two-character separator `::`. -/
def splitOnColons : List Char → List (List Char)
  | [] => [[]]
  | [c] => [[c]]
  | c :: c2 :: rest =>
    if c = ':' ∧ c2 = ':' then
      [] :: splitOnColons rest
    else
      match splitOnColons (c2 :: rest) with
      | part :: parts => (c :: part) :: parts
      | [] => [[c]]

/-- Parts of `key.split("::")`, as strings. -/
def splitKey (key : String) : List String :=
  (splitOnColons key.data).map String.mk

/-- Python `del d[k]` on an insertion-ordered dict represented as an
association list: removes the (unique) entry with key `k`. -/
def dictErase (k : String) : List (String × PyVal) → List (String × PyVal)
  | [] => []
  | (k', v) :: rest => if k' = k then rest else (k', v) :: dictErase k rest

/-- Python `d[k] = v` on an insertion-ordered dict: replaces the value in
place if `k` is present, otherwise appends the new entry. -/
def dictSet (k : String) (v : PyVal) : List (String × PyVal) → List (String × PyVal)
  | [] => [(k, v)]
  | (k', v') :: rest => if k' = k then (k, v) :: rest else (k', v') :: dictSet k v rest

/-- Python `d.get(k)` / `d[k]`: the value stored under `k`, if any. -/
def dictLookup (k : String) : List (String × PyVal) → Option PyVal
  | [] => none
  | (k', v) :: rest => if k' = k then some v else dictLookup k rest

mutual

/-- Embedding of `recursively_convert_to_json` from `state_managed_abc.py`:
dict values are converted recursively under an empty attribute name; list
elements are converted and the returned keys discarded; a `datetime` becomes
its ISO string under the key suffixed `::datetime`; a resource instance
(every resource class is in the `get_resource_variables()` registry, which
enumerates all resource types) is serialized via its own `to_json` under the
key suffixed `::<ClassName>`; everything else is stringified under the
unchanged key. -/
def recursively_convert_to_json (attribute_name : String) (attribute_value : PyVal) :
    String × PyVal :=
  match attribute_value with
  | .vDict entries => (attribute_name, .vDict (convertDictValues entries))
  | .vList xs => (attribute_name, .vList (convertListValues attribute_name xs))
  | .vDatetime d => (attribute_name ++ "::datetime", .vStr d.iso)
  | .vRes className flds => (attribute_name ++ "::" ++ className, .vDict (toJsonFields flds))
  | v => (attribute_name, .vStr (pyScalarStr v))

/-- The dict comprehension `{key: recursively_convert_to_json("", value)[1] ...}`. -/
def convertDictValues : List (String × PyVal) → List (String × PyVal)
  | [] => []
  | (k, v) :: rest => (k, (recursively_convert_to_json "" v).2) :: convertDictValues rest

/-- The list comprehension `[recursively_convert_to_json(attribute_name, value)[1] ...]`. -/
def convertListValues (attribute_name : String) : List PyVal → List PyVal
  | [] => []
  | v :: rest =>
    (recursively_convert_to_json attribute_name v).2 :: convertListValues attribute_name rest

/-- Embedding of `StateManagedResource.to_json`: applies
`recursively_convert_to_json` to each (field name, field value) pair of the
instance, in field declaration order. -/
def toJsonFields : List (String × PyVal) → List (String × PyVal)
  | [] => []
  | (n, v) :: rest => recursively_convert_to_json n v :: toJsonFields rest

end

/-- Python `datetime.fromisoformat(value)`.  Applying it to a non-string
raises a `TypeError` in Python; that unreachable branch leaves the value
unchanged here. -/
def pyFromIso : PyVal → PyVal
  | .vStr s => .vDatetime ⟨s⟩
  | v => v

/- Embedding of the loop body of `recursively_convert_from_json`: iterates
over the items of the original dictionary while mutating `dataCopy`.  A key
splitting as `[name, cls]` with `cls ≠ "datetime"` is the
`"::" in key and key.split("::")[-1] != "datetime"` branch: the tagged entry
is deleted and the reconstructed resource stored under the plain name (the
class is found in the `get_resource_variables()` registry, and its
`from_json` is `cls(**recursively_convert_from_json(value))`; applying it to
a non-dict value raises in Python, which leaves the value unchanged here).
A key ending in `::datetime` is the `key.endswith("::datetime")` branch.  A
key with three or more `::`-separated parts not ending in `datetime` raises
`ValueError` (tuple unpacking) in Python; such keys cannot arise from
`to_json` output with marker-free field names and are skipped here.
The doc comment above describes the whole mutual block that follows. -/
mutual

/-- Loop of `recursively_convert_from_json` over the original items, carrying
the mutated `data_copy`; see the comment preceding the block. -/
def fromJsonLoop : List (String × PyVal) → List (String × PyVal) → List (String × PyVal)
  | [], dataCopy => dataCopy
  | (key, value) :: rest, dataCopy => fromJsonLoop rest (fromJsonStep key value dataCopy)
termination_by items _ => sizeOf items

/-- Effect of one loop iteration on `data_copy`. -/
def fromJsonStep (key : String) (value : PyVal) (dataCopy : List (String × PyVal)) :
    List (String × PyVal) :=
  match splitKey key with
  | [instance_name, class_type] =>
    if class_type = "datetime" then
      dictSet instance_name (pyFromIso value) (dictErase key dataCopy)
    else
      dictSet instance_name (decodeTagged class_type value) (dictErase key dataCopy)
  | parts =>
    if 2 ≤ parts.length then
      if parts.getLastD "" = "datetime" then
        dictSet (parts.headD "") (pyFromIso value) (dictErase key dataCopy)
      else
        dataCopy
    else
      dataCopy
termination_by sizeOf value + 1

/-- Reconstruction of a nested resource: `get_resource_variables()[class_type]
.from_json(value)`, i.e. `cls(**recursively_convert_from_json(value))`. -/
def decodeTagged (class_type : String) (value : PyVal) : PyVal :=
  match value with
  | .vDict entries => PyVal.vRes class_type (fromJsonLoop entries entries)
  | v => v
termination_by sizeOf value

end

/-- Embedding of `recursively_convert_from_json`: `data_copy` starts as a
copy of the dictionary and the loop runs over the original items. -/
def recursively_convert_from_json (dictionary : List (String × PyVal)) :
    List (String × PyVal) :=
  fromJsonLoop dictionary dictionary

/-- Embedding of `StateManagedResource.from_json` for the class named
`className`: `cls(**recursively_convert_from_json(data))`. -/
def StateManagedResource.from_json (className : String)
    (data : List (String × PyVal)) : PyVal :=
  .vRes className (recursively_convert_from_json data)

/-- Embedding of `StateManagedResource.to_json` on a resource instance. -/
def StateManagedResource.to_json : PyVal → List (String × PyVal)
  | .vRes _ flds => toJsonFields flds
  | _ => []

/-- The round trip `from_json(to_json(r))` of a resource instance, decoding
with the instance's own class. -/
def roundTrip : PyVal → PyVal
  | .vRes c flds => StateManagedResource.from_json c (toJsonFields flds)
  | v => v

mutual

/-- Python `==` on modelled runtime values: structural on scalars and lists,
while dicts (and dataclass instances, which compare as their field tuples)
compare order-insensitively as finite maps. -/
def pyEq : PyVal → PyVal → Bool
  | .vStr a, .vStr b => a = b
  | .vBool a, .vBool b => a = b
  | .vInt a, .vInt b => a = b
  | .vNone, .vNone => true
  | .vDatetime a, .vDatetime b => a = b
  | .vList xs, .vList ys => pyEqList xs ys
  | .vDict d1, .vDict d2 => pyEqDict d1 d2
  | .vRes c1 f1, .vRes c2 f2 => c1 = c2 && pyEqDict f1 f2
  | _, _ => false

/-- Elementwise Python `==` on lists. -/
def pyEqList : List PyVal → List PyVal → Bool
  | [], [] => true
  | x :: xs, y :: ys => pyEq x y && pyEqList xs ys
  | _, _ => false

/-- Python `==` on dicts: equal sizes and every entry of the first found,
with an equal value, in the second. -/
def pyEqDict (d1 d2 : List (String × PyVal)) : Bool :=
  d1.length = d2.length && pyEqEntries d1 d2

/-- Each entry of `d1` is present in `d2` with a `pyEq`-equal value. -/
def pyEqEntries : List (String × PyVal) → List (String × PyVal) → Bool
  | [], _ => true
  | (k, v) :: rest, d2 =>
    (match dictLookup k d2 with
     | some w => pyEq v w
     | none => false)
    && pyEqEntries rest d2

end

/-- The needle occurs as a substring of the haystack (on character lists). -/
def strContains (haystack needle : String) : Prop :=
  needle.data <:+: haystack.data

/-- Boolean substring test, Python's `needle in haystack` on strings. -/
def strContainsB (haystack needle : String) : Bool :=
  decide (needle.data <:+: haystack.data)

/-- Comma-separated quoted items of a Python list-of-strings repr. -/
def pyStrListReprBody : List String → String
  | [] => ""
  | [x] => "\x27" ++ x ++ "\x27"
  | x :: rest => "\x27" ++ x ++ "\x27" ++ ", " ++ pyStrListReprBody rest

/-- Python `repr` of a list of strings, as produced by
`f"{list(interal_names.keys())}"` in the invalid-attribute error message. -/
def pyStrListRepr (xs : List String) : String :=
  "[" ++ pyStrListReprBody xs ++ "]"

/-- Error classes raised by the lifecycle engine.  The concrete classes live
in `ado_wrapper/errors.py`, which is not part of the repository snapshot;
the constructors are modelled from the spec taxonomy and from the names
imported by `state_managed_abc.py` (`ResourceNotFound`, `UpdateFailed`,
`DeletionFailed`, `ResourceAlreadyExists`, `InvalidPermissionsError` — the
spec's PermissionDenied — plus Python's built-in `ValueError`).  `crash`
stands for an unguarded Python runtime error (IndexError/TypeError/KeyError),
which in this total embedding is returned instead of a value. -/
inductive AdoError where
  | resourceNotFound (msg : String)
  | valueError (msg : String)
  | invalidPermissions (msg : String)
  | resourceAlreadyExists (msg : String)
  | deletionFailed (msg : String)
  | updateFailed (msg : String)
  | crash
deriving DecidableEq, Repr

/-- An HTTP request issued through the injected session. -/
structure HttpCall where
  method : String
  url : String
  body : Option (List (String × PyVal))

/-- An HTTP response: status code, raw text, and the value of `.json()`. -/
structure Response where
  status_code : Nat
  text : String
  jsonBody : PyVal

/-- The injected HTTP collaborator: a deterministic map from requests to
responses (the source is single-threaded and synchronous). -/
def Session := HttpCall → Response

/-- State Store contents: a mapping keyed by (resource kind name, resource
id) to the serialized resource JSON.  Modelled from the spec: the concrete
`StateManager` lives in `state_manager.py`, which is not part of the
repository snapshot. -/
structure StateManager where
  resources : List ((String × String) × List (String × PyVal))

/-- Association-list lookup on (kind, id) keys. -/
def lookupPairKey (kind rid : String) :
    List ((String × String) × List (String × PyVal)) → Option (List (String × PyVal))
  | [] => none
  | (k, v) :: rest => if k = (kind, rid) then some v else lookupPairKey kind rid rest

/-- Lookup of a (kind, id) entry in the State Store. -/
def StateManager.get (sm : StateManager) (kind rid : String) :
    Option (List (String × PyVal)) :=
  lookupPairKey kind rid sm.resources

/-- Association-list upsert on (kind, id) keys. -/
def upsertPairKey (kind rid : String) (json : List (String × PyVal)) :
    List ((String × String) × List (String × PyVal)) →
    List ((String × String) × List (String × PyVal))
  | [] => [((kind, rid), json)]
  | (k, v) :: rest =>
    if k = (kind, rid) then (k, json) :: rest else (k, v) :: upsertPairKey kind rid json rest

/-- Modelled from the spec: `state_manager.add_resource_to_state` upserts the
(kind, id) entry (insert on create). -/
def StateManager.add_resource_to_state (sm : StateManager) (kind rid : String)
    (json : List (String × PyVal)) : StateManager :=
  ⟨upsertPairKey kind rid json sm.resources⟩

/-- Modelled from the spec: `state_manager.update_resource_in_state` replaces
the (kind, id) entry (write-through upsert). -/
def StateManager.update_resource_in_state (sm : StateManager) (kind rid : String)
    (json : List (String × PyVal)) : StateManager :=
  ⟨upsertPairKey kind rid json sm.resources⟩

/-- Association-list removal on (kind, id) keys. -/
def removePairKey (kind rid : String) :
    List ((String × String) × List (String × PyVal)) →
    List ((String × String) × List (String × PyVal))
  | [] => []
  | (k, v) :: rest =>
    if k = (kind, rid) then removePairKey kind rid rest else (k, v) :: removePairKey kind rid rest

/-- Modelled from the spec: `state_manager.remove_resource_from_state` drops
the (kind, id) entry. -/
def StateManager.remove_resource_from_state (sm : StateManager) (kind rid : String) :
    StateManager :=
  ⟨removePairKey kind rid sm.resources⟩

/-- The attributes of `AdoClient` consumed by `StateManagedResource`
(`ado_org`, `plan_mode`, `suppress_warnings`, `state_manager`); the client
class itself lives in `ado_wrapper/client.py`, not part of the snapshot, and
is modelled from the spec and from these attribute accesses. -/
structure AdoClient where
  ado_org : String
  plan_mode : Bool
  suppress_warnings : Bool
  state_manager : StateManager

/-- Modelled from the spec: the Field Metadata Registry data of one concrete
resource type, as the capability interface the engine consumes — the class
name, the identifier field (declared with `is_id_field` metadata), the
editable fields with their wire (`internal_name`) names in declaration order
(`get_internal_field_names`), and the type's own `from_request_payload`
payload mapping. -/
structure ResourceClass where
  name : String
  idFieldName : String
  editableFields : List (String × String)
  fromRequestPayload : PyVal → Except AdoError PyVal

/-- Modelled from the spec: `utils.extract_id` reads the value of the field
declared as the identifier from the instance (stringified as the State Store
key). -/
def extract_id (cls : ResourceClass) (resource : PyVal) : String :=
  match resource with
  | .vRes _ flds =>
    match dictLookup cls.idFieldName flds with
    | some v => pyScalarStr v
    | none => ""
  | _ => ""

/-- Python `key in json` for a decoded JSON body: key test on dicts, element
equality test on lists, substring test on strings; `in` on other scalars
raises `TypeError` (`none`). -/
def pyInJson (key : String) : PyVal → Option Bool
  | .vDict d => some ((d.map Prod.fst).contains key)
  | .vList xs => some (xs.any (fun x => pyEq (.vStr key) x))
  | .vStr s => some (strContainsB s key)
  | _ => none

/-- Python `x[0]`: first element of a list (IndexError when empty), first
character of a string, `TypeError` otherwise. -/
def pyIndex0 : PyVal → Option PyVal
  | .vList (x :: _) => some x
  | .vList [] => none
  | .vStr s => if s.isEmpty then none else some (.vStr (s.take 1))
  | _ => none

/-- URL normalization shared by the lifecycle methods: a bare path is joined
with the fixed organization base URL. -/
def fullUrl (client : AdoClient) (url : String) : String :=
  if url.startsWith "https://" then url
  else "https://dev.azure.com/" ++ client.ado_org ++ url

/-- The GET request issued by `_get_by_url` / `_get_all`. -/
def getCall (client : AdoClient) (url : String) : HttpCall :=
  ⟨"get", fullUrl client url, none⟩

/-- The POST request issued by `_create` (`json=payload or {}`). -/
def postCall (client : AdoClient) (url : String)
    (payload : Option (List (String × PyVal))) : HttpCall :=
  ⟨"post", fullUrl client url, some (payload.getD [])⟩

/-- The DELETE request issued by `_delete_by_id`. -/
def deleteCall (client : AdoClient) (url : String) : HttpCall :=
  ⟨"delete", fullUrl client url, none⟩

/-- Embedding of `StateManagedResource._get_by_url`: GET, then 404 →
`ResourceNotFound` naming the class; other status ≥ 300 → `ValueError`
including the response text; a body containing `"value"` is indexed at
`["value"][0]` with no emptiness guard (IndexError on an empty list becomes
`crash` in this total embedding); otherwise the whole body is the payload. -/
def StateManagedResource.get_by_url (cls : ResourceClass) (client : AdoClient)
    (session : Session) (url : String) : Except AdoError PyVal :=
  let resp := session (getCall client url)
  if resp.status_code = 404 then
    .error (.resourceNotFound ("No " ++ cls.name ++ " found with that identifier!"))
  else if 300 ≤ resp.status_code then
    .error (.valueError ("Error getting " ++ cls.name ++ " by id: " ++ resp.text))
  else
    match pyInJson "value" resp.jsonBody with
    | none => .error .crash
    | some false => cls.fromRequestPayload resp.jsonBody
    | some true =>
      match resp.jsonBody with
      | .vDict d =>
        match dictLookup "value" d with
        | some v =>
          match pyIndex0 v with
          | some first => cls.fromRequestPayload first
          | none => .error .crash
        | none => .error .crash
      | _ => .error .crash

/-- Modelled from the spec: a Planned Change record staged by the Plan
component (`plan_resources/plan_resource.py` is not part of the repository
snapshot): resource kind, operation, target url and proposed payload. -/
structure PlannedChange where
  kind : String
  operation : String
  url : String
  payload : List (String × PyVal)

/-- Modelled from the spec: `PlannedStateManagedResource.create` returns a
syntactically valid resource-shaped placeholder carrying no server-assigned
identifier. -/
def PlannedStateManagedResource.create (cls : ResourceClass) (url : String)
    (payload : Option (List (String × PyVal))) : PyVal × PlannedChange :=
  (.vRes cls.name [], ⟨cls.name, "create", url, payload.getD []⟩)

/-- Modelled from the spec: `PlannedStateManagedResource.update` stages the
intended attribute change. -/
def PlannedStateManagedResource.update (cls : ResourceClass) (url : String)
    (params : List (String × PyVal)) : PlannedChange :=
  ⟨cls.name, "update", url, params⟩

/-- Observable outcome of `_create`: the returned value or raised error, the
HTTP requests issued, the State Store afterwards, and the staged plan
records. -/
structure CreateResult where
  result : Except AdoError PyVal
  calls : List HttpCall
  state : StateManager
  plans : List PlannedChange

/-- Embedding of `StateManagedResource._create`: under plan mode the call is
diverted to the Plan component before any network call; otherwise a POST is
issued and a status ≥ 300 is classified (401/403 → permissions, 409 →
already exists, otherwise `ValueError`); on success the resource is decoded
via `from_request_payload`, optionally refetched by id (`_get_by_id` is
resource-specific and abstracted as the `getById` collaborator), then added
to the State Store keyed by (class name, id) and returned. -/
def StateManagedResource.create (cls : ResourceClass) (client : AdoClient)
    (session : Session) (url : String) (payload : Option (List (String × PyVal)))
    (refetch : Bool) (getById : String → Except AdoError PyVal) : CreateResult :=
  if client.plan_mode then
    let planned := PlannedStateManagedResource.create cls url payload
    ⟨.ok planned.1, [], client.state_manager, [planned.2]⟩
  else
    let call := postCall client url payload
    let resp := session call
    if 300 ≤ resp.status_code then
      if resp.status_code = 401 ∨ resp.status_code = 403 then
        ⟨.error (.invalidPermissions
            ("You do not have permission to create this " ++ cls.name ++ "! " ++ resp.text)),
          [call], client.state_manager, []⟩
      else if resp.status_code = 409 then
        ⟨.error (.resourceAlreadyExists
            ("The " ++ cls.name ++ " with that identifier already exist!")),
          [call], client.state_manager, []⟩
      else
        ⟨.error (.valueError ("Error creating " ++ cls.name ++ ": " ++
            toString resp.status_code ++ " - " ++ resp.text)),
          [call], client.state_manager, []⟩
    else
      match cls.fromRequestPayload resp.jsonBody with
      | .error e => ⟨.error e, [call], client.state_manager, []⟩
      | .ok decoded =>
        match if refetch then getById (extract_id cls decoded) else .ok decoded with
        | .error e => ⟨.error e, [call], client.state_manager, []⟩
        | .ok resource =>
          ⟨.ok resource, [call],
            client.state_manager.add_resource_to_state cls.name (extract_id cls resource)
              (StateManagedResource.to_json resource), []⟩

/-- Observable outcome of `_delete_by_id`: result or error, HTTP requests
issued, State Store afterwards, and warnings printed. -/
structure DeleteResult where
  result : Except AdoError Unit
  calls : List HttpCall
  state : StateManager
  warnings : List String

/-- Embedding of `StateManagedResource._delete_by_id`: DELETE, then 204 falls
through to the state removal; 404 warns (unless warnings are suppressed) and
still falls through to the state removal; any other status raises
`DeletionFailed` (using the response JSON's `message` field when present)
and leaves the State Store untouched. -/
def StateManagedResource.delete_by_id (cls : ResourceClass) (client : AdoClient)
    (session : Session) (url : String) (resource_id : String) : DeleteResult :=
  let call := deleteCall client url
  let resp := session call
  let removed := client.state_manager.remove_resource_from_state cls.name resource_id
  let warn :=
    if client.suppress_warnings then ([] : List String)
    else ["[ADO_WRAPPER] Resource not found, probably already deleted, removing from state"]
  if resp.status_code ≠ 204 then
    if resp.status_code = 404 then
      ⟨.ok (), [call], removed, warn⟩
    else
      match pyInJson "message" resp.jsonBody with
      | none => ⟨.error .crash, [call], client.state_manager, []⟩
      | some true =>
        match resp.jsonBody with
        | .vDict d =>
          match dictLookup "message" d with
          | some m =>
            ⟨.error (.deletionFailed ("[ADO_WRAPPER] Error deleting " ++ cls.name ++
                " (" ++ resource_id ++ "): " ++ pyScalarStr m)),
              [call], client.state_manager, []⟩
          | none => ⟨.error .crash, [call], client.state_manager, []⟩
        | _ => ⟨.error .crash, [call], client.state_manager, []⟩
      | some false =>
        ⟨.error (.deletionFailed ("[ADO_WRAPPER] Error deleting " ++ cls.name ++
            " (" ++ resource_id ++ "): " ++ resp.text)),
          [call], client.state_manager, []⟩
  else
    ⟨.ok (), [call], removed, []⟩

/-- Observable outcome of `_update`: result or error, the instance afterwards
(Python mutates `self` in place), HTTP requests issued, State Store
afterwards, and staged plan records. -/
structure UpdateResult where
  result : Except AdoError Unit
  selfAfter : PyVal
  calls : List HttpCall
  state : StateManager
  plans : List PlannedChange

/-- The invalid-attribute `ValueError` message of `_update`, listing the
valid editable attribute names. -/
def invalidAttributeMsg (cls : ResourceClass) (attribute_name : String) : String :=
  "The attribute `" ++ attribute_name ++ "` is not editable!  Editable attributes are: " ++
    pyStrListRepr (cls.editableFields.map Prod.fst)

/-- The `UpdateFailed` message of `_update`. -/
def updateFailedMsg (cls : ResourceClass) (self : PyVal) (attribute_name : String)
    (attribute_value : PyVal) (responseText : String) : String :=
  "Failed to update " ++ cls.name ++ " with id " ++ extract_id cls self ++
    " and attribute " ++ attribute_name ++ " to " ++ pyScalarStr attribute_value ++
    ". \nReason:\n" ++ responseText

/-- Lookup `interal_names[attribute_name]`: the wire name of an editable
field (`get_internal_field_names` returns the editable-name → wire-name
dict). -/
def internalFieldName (cls : ResourceClass) (attribute_name : String) : String :=
  ((cls.editableFields.filter (fun p => p.1 = attribute_name)).map Prod.snd).headD ""

/-- The merged body `params |= {interal_names[attribute_name]:
attribute_value}` of `_update`. -/
def mergedParams (cls : ResourceClass) (attribute_name : String)
    (attribute_value : PyVal) (params : List (String × PyVal)) : List (String × PyVal) :=
  dictSet (internalFieldName cls attribute_name) attribute_value params

/-- The PUT/PATCH request issued by `_update`. -/
def updateCall (cls : ResourceClass) (client : AdoClient) (update_action url : String)
    (attribute_name : String) (attribute_value : PyVal)
    (params : List (String × PyVal)) : HttpCall :=
  ⟨update_action, fullUrl client url, some (mergedParams cls attribute_name attribute_value params)⟩

/-- Python `setattr(self, attribute_name, attribute_value)` on a dataclass
instance (the attribute exists, being an editable field). -/
def setAttr (self : PyVal) (attribute_name : String) (attribute_value : PyVal) : PyVal :=
  match self with
  | .vRes c flds => .vRes c (dictSet attribute_name attribute_value flds)
  | v => v

/-- Embedding of `StateManagedResource._update` for an instance of class
`cls`: validates the attribute against `get_internal_field_names` before
anything else (a `ValueError` listing the editable names otherwise, with no
network call), merges the wire-named value into `params`, diverts to the
Plan component under plan mode, otherwise issues the PUT/PATCH; a status
other than 200 raises `UpdateFailed` leaving the instance and the State
Store untouched; on success the attribute is set on the instance, which is
re-serialized into the State Store. -/
def StateManagedResource.update (cls : ResourceClass) (self : PyVal)
    (client : AdoClient) (session : Session) (update_action : String) (url : String)
    (attribute_name : String) (attribute_value : PyVal)
    (params : List (String × PyVal)) : UpdateResult :=
  if ¬ (cls.editableFields.map Prod.fst).contains attribute_name then
    ⟨.error (.valueError (invalidAttributeMsg cls attribute_name)),
      self, [], client.state_manager, []⟩
  else
    let merged := mergedParams cls attribute_name attribute_value params
    if client.plan_mode then
      ⟨.ok (), self, [], client.state_manager,
        [PlannedStateManagedResource.update cls url merged]⟩
    else
      let call := updateCall cls client update_action url attribute_name attribute_value params
      let resp := session call
      if resp.status_code ≠ 200 then
        ⟨.error (.updateFailed (updateFailedMsg cls self attribute_name attribute_value
            resp.text)),
          self, [call], client.state_manager, []⟩
      else
        let selfAfter := setAttr self attribute_name attribute_value
        ⟨.ok (), selfAfter, [call],
          client.state_manager.update_resource_in_state cls.name (extract_id cls selfAfter)
            (StateManagedResource.to_json selfAfter), []⟩

/-- Python `s.removeprefix("refs/heads/")` as used by
`Repo.from_request_payload`. -/
def stripRefsHeads (s : String) : String :=
  if s.startsWith "refs/heads/" then s.drop 11 else s

/-- Embedding of `Repo.from_request_payload` from `resources/repo.py`:
`cls(data["id"], data["name"], data.get("defaultBranch", "main")
.removeprefix("refs/heads/"), bool(data.get("isDisabled", False)))`.
A missing `id`/`name` key raises `KeyError`; a non-string `defaultBranch`
raises on `.removeprefix`. -/
def Repo.from_request_payload (data : PyVal) : Except AdoError PyVal :=
  match data with
  | .vDict d =>
    match dictLookup "id" d, dictLookup "name" d with
    | some i, some n =>
      match (dictLookup "defaultBranch" d).getD (.vStr "main") with
      | .vStr db =>
        .ok (.vRes "Repo"
          [("repo_id", i), ("name", n),
           ("default_branch", .vStr (stripRefsHeads db)),
           ("is_disabled", .vBool (pyBool ((dictLookup "isDisabled" d).getD (.vBool false))))])
      | _ => .error .crash
    | _, _ => .error .crash
  | _ => .error .crash

/-- The Field Metadata Registry entry for `Repo` (`resources/repo.py`):
`repo_id` is the id field; `name`, `default_branch` (wire name
`defaultBranch`) and `is_disabled` (wire name `isDisabled`) are editable. -/
def RepoClass : ResourceClass :=
  ⟨"Repo", "repo_id",
    [("name", "name"), ("default_branch", "defaultBranch"), ("is_disabled", "isDisabled")],
    Repo.from_request_payload⟩

/-! Helper lemmas about substring containment, used to state that error
messages name the resource type, include the response body, or list the
editable attribute names. -/

theorem infix_append_left (a : List Char) {n b : List Char} (h : n <:+: b) :
    n <:+: a ++ b := by
  obtain ⟨s, t, rfl⟩ := h
  exact ⟨a ++ s, t, by simp⟩

theorem infix_append_right {n a : List Char} (b : List Char) (h : n <:+: a) :
    n <:+: a ++ b := by
  obtain ⟨s, t, rfl⟩ := h
  exact ⟨s, t ++ b, by simp⟩

theorem strContains_sandwich (a n b : String) : strContains (a ++ n ++ b) n := by
  unfold strContains
  rw [String.data_append, String.data_append]
  exact List.infix_append _ _ _

theorem strContains_right (a n : String) : strContains (a ++ n) n := by
  unfold strContains
  rw [String.data_append]
  exact infix_append_left _ (List.infix_rfl)

theorem strAppend_assoc (a b c : String) : (a ++ b) ++ c = a ++ (b ++ c) := by
  apply String.ext
  simp [String.data_append]

theorem pyStrListReprBody_decomp {n : String} {xs : List String} (h : n ∈ xs) :
    ∃ a b : String, pyStrListReprBody xs = a ++ n ++ b := by
  induction xs with
  | nil => cases h
  | cons x rest ih =>
    rcases List.mem_cons.mp h with rfl | h
    · cases rest with
      | nil => exact ⟨"\x27", "\x27", rfl⟩
      | cons y ys =>
        refine ⟨"\x27", "\x27" ++ ", " ++ pyStrListReprBody (y :: ys), ?_⟩
        show "\x27" ++ n ++ "\x27" ++ ", " ++ pyStrListReprBody (y :: ys) = _
        simp [strAppend_assoc]
    · cases rest with
      | nil => cases h
      | cons y ys =>
        obtain ⟨a, b, hab⟩ := ih h
        refine ⟨"\x27" ++ x ++ "\x27" ++ ", " ++ a, b, ?_⟩
        show "\x27" ++ x ++ "\x27" ++ ", " ++ pyStrListReprBody (y :: ys) = _
        rw [hab]
        simp [strAppend_assoc]

theorem strContains_pyStrListRepr {n : String} {xs : List String} (h : n ∈ xs) :
    strContains (pyStrListRepr xs) n := by
  obtain ⟨a, b, hab⟩ := pyStrListReprBody_decomp h
  unfold pyStrListRepr
  rw [hab]
  have : "[" ++ (a ++ n ++ b) ++ "]" = ("[" ++ a) ++ n ++ (b ++ "]") := by
    simp [strAppend_assoc]
  rw [this]
  exact strContains_sandwich _ _ _

/-! Concrete fixtures used by witnesses and counterexamples. -/

/-- A client with plan mode off and an empty State Store. -/
def client0 : AdoClient := ⟨"org", false, false, ⟨[]⟩⟩

/-- A client with plan mode on. -/
def clientPlan : AdoClient := ⟨"org", true, false, ⟨[]⟩⟩

/-- A stub HTTP collaborator answering every request with the same response. -/
def sessionConst (r : Response) : Session := fun _ => r

/-- A populated `Repo` instance (disabled, so with a boolean field set). -/
def repoInstance : PyVal :=
  .vRes "Repo" [("repo_id", .vStr "1"), ("name", .vStr "r"),
    ("default_branch", .vStr "main"), ("is_disabled", .vBool false)]

/-- C2: while the client's plan-mode flag is set, `_create` and `_update`
issue no HTTP request and leave the State Store unchanged; the call is
diverted into a Planned Change record (for `_update`, after the
editable-field validation, whose failure also issues no request). -/
theorem plan_mode_diverts_create_update (cls : ResourceClass) (client : AdoClient)
    (session : Session) (url : String) (payload : Option (List (String × PyVal)))
    (refetch : Bool) (getById : String → Except AdoError PyVal) (self : PyVal)
    (update_action url2 attribute_name : String) (attribute_value : PyVal)
    (params : List (String × PyVal)) (hplan : client.plan_mode = true) :
    ((StateManagedResource.create cls client session url payload refetch getById).calls = []
      ∧ (StateManagedResource.create cls client session url payload refetch getById).state
          = client.state_manager
      ∧ (StateManagedResource.create cls client session url payload refetch getById).plans
          = [⟨cls.name, "create", url, payload.getD []⟩])
    ∧ ((StateManagedResource.update cls self client session update_action url2
          attribute_name attribute_value params).calls = []
      ∧ (StateManagedResource.update cls self client session update_action url2
          attribute_name attribute_value params).state = client.state_manager)
    ∧ ((cls.editableFields.map Prod.fst).contains attribute_name = true →
        ∃ p : PlannedChange, (StateManagedResource.update cls self client session
          update_action url2 attribute_name attribute_value params).plans = [p]
          ∧ p.kind = cls.name ∧ p.operation = "update") := by
  refine ⟨?_, ?_, ?_⟩
  · simp [StateManagedResource.create, hplan, PlannedStateManagedResource.create]
  · by_cases hc : (cls.editableFields.map Prod.fst).contains attribute_name
    · simp only [StateManagedResource.update, hc]
      simp [hplan]
    · simp only [StateManagedResource.update, hc]
      simp [hplan]
  · intro hc
    refine ⟨PlannedStateManagedResource.update cls url2
      (mergedParams cls attribute_name attribute_value params), ?_, rfl, rfl⟩
    simp only [StateManagedResource.update, hc]
    simp [hplan]

/-- Witness for C2 at concrete inputs: plan-mode client, `Repo` class,
editable attribute `name`. -/
theorem plan_mode_diverts_create_update_witness :
    clientPlan.plan_mode = true
    ∧ (RepoClass.editableFields.map Prod.fst).contains "name" = true
    ∧ (StateManagedResource.create RepoClass clientPlan
        (sessionConst ⟨500, "", .vNone⟩) "/u" none false (fun _ => .error .crash)).calls = [] := by
  refine ⟨rfl, by decide, ?_⟩
  exact (plan_mode_diverts_create_update RepoClass clientPlan
    (sessionConst ⟨500, "", .vNone⟩) "/u" none false (fun _ => .error .crash)
    repoInstance "patch" "/u2" "name" (.vStr "x") [] rfl).1.1

/-- C3: `_update` with an attribute name outside the type's editable-field
set raises a `ValueError` whose message lists the valid editable attribute
names, performs zero HTTP calls, and leaves the instance and the State Store
unchanged. -/
theorem update_invalid_attribute_rejected (cls : ResourceClass) (self : PyVal)
    (client : AdoClient) (session : Session) (update_action url attribute_name : String)
    (attribute_value : PyVal) (params : List (String × PyVal))
    (h : (cls.editableFields.map Prod.fst).contains attribute_name = false) :
    (StateManagedResource.update cls self client session update_action url
        attribute_name attribute_value params).result
      = .error (.valueError (invalidAttributeMsg cls attribute_name))
    ∧ (StateManagedResource.update cls self client session update_action url
        attribute_name attribute_value params).calls = []
    ∧ (StateManagedResource.update cls self client session update_action url
        attribute_name attribute_value params).selfAfter = self
    ∧ (StateManagedResource.update cls self client session update_action url
        attribute_name attribute_value params).state = client.state_manager
    ∧ ∀ n ∈ cls.editableFields.map Prod.fst,
        strContains (invalidAttributeMsg cls attribute_name) n := by
  refine ⟨?_, ?_, ?_, ?_, ?_⟩
  · simp only [StateManagedResource.update, h]
    simp
  · simp only [StateManagedResource.update, h]
    simp
  · simp only [StateManagedResource.update, h]
    simp
  · simp only [StateManagedResource.update, h]
    simp
  · intro n hn
    have h1 : strContains (pyStrListRepr (cls.editableFields.map Prod.fst)) n :=
      strContains_pyStrListRepr hn
    show n.data <:+: (invalidAttributeMsg cls attribute_name).data
    have h2 : (invalidAttributeMsg cls attribute_name).data
        = ("The attribute `" ++ attribute_name ++
            "` is not editable!  Editable attributes are: ").data
          ++ (pyStrListRepr (cls.editableFields.map Prod.fst)).data := by
      simp [invalidAttributeMsg, String.data_append]
    rw [h2]
    exact infix_append_left _ h1

/-- Witness for C3: `Repo` has no editable attribute `repo_id`; its error
message lists `name`. -/
theorem update_invalid_attribute_rejected_witness :
    (RepoClass.editableFields.map Prod.fst).contains "repo_id" = false
    ∧ (StateManagedResource.update RepoClass repoInstance client0
        (sessionConst ⟨200, "", .vNone⟩) "patch" "/u" "repo_id" (.vStr "2") []).calls = []
    ∧ strContains (invalidAttributeMsg RepoClass "repo_id") "name" := by
  have h := update_invalid_attribute_rejected RepoClass repoInstance client0
    (sessionConst ⟨200, "", .vNone⟩) "patch" "/u" "repo_id" (.vStr "2") [] (by decide)
  exact ⟨by decide, h.2.1, h.2.2.2.2 "name" (by decide)⟩

/-- C10: `_update` with an editable attribute and plan mode off, answered
with a status other than 200, raises `UpdateFailed` and leaves both the
instance and the State Store exactly as they were. -/
theorem update_atomic_on_error (cls : ResourceClass) (self : PyVal)
    (client : AdoClient) (session : Session) (update_action url attribute_name : String)
    (attribute_value : PyVal) (params : List (String × PyVal))
    (hattr : (cls.editableFields.map Prod.fst).contains attribute_name = true)
    (hplan : client.plan_mode = false)
    (hstatus : (session (updateCall cls client update_action url attribute_name
        attribute_value params)).status_code ≠ 200) :
    (StateManagedResource.update cls self client session update_action url
        attribute_name attribute_value params).result
      = .error (.updateFailed (updateFailedMsg cls self attribute_name attribute_value
          (session (updateCall cls client update_action url attribute_name
            attribute_value params)).text))
    ∧ (StateManagedResource.update cls self client session update_action url
        attribute_name attribute_value params).selfAfter = self
    ∧ (StateManagedResource.update cls self client session update_action url
        attribute_name attribute_value params).state = client.state_manager := by
  refine ⟨?_, ?_, ?_⟩ <;>
  · simp only [StateManagedResource.update, hattr]
    simp [hplan, hstatus]

/-- Witness for C10: a 500 response to a `Repo` name update changes nothing. -/
theorem update_atomic_on_error_witness :
    (RepoClass.editableFields.map Prod.fst).contains "name" = true
    ∧ client0.plan_mode = false
    ∧ (StateManagedResource.update RepoClass repoInstance client0
        (sessionConst ⟨500, "boom", .vNone⟩) "patch" "/u" "name" (.vStr "x") []).selfAfter
        = repoInstance
    ∧ (StateManagedResource.update RepoClass repoInstance client0
        (sessionConst ⟨500, "boom", .vNone⟩) "patch" "/u" "name" (.vStr "x") []).state
        = client0.state_manager := by
  have h := update_atomic_on_error RepoClass repoInstance client0
    (sessionConst ⟨500, "boom", .vNone⟩) "patch" "/u" "name" (.vStr "x") []
    (by decide) rfl (by simp [sessionConst])
  exact ⟨by decide, rfl, h.2.1, h.2.2⟩

/-- A key present among a dict's keys has a value under `dictLookup`. -/
theorem dictLookup_isSome_of_mem {k : String} {d : List (String × PyVal)}
    (h : k ∈ d.map Prod.fst) : ∃ v, dictLookup k d = some v := by
  induction d with
  | nil => simp at h
  | cons p rest ih =>
    by_cases hp : p.1 = k
    · exact ⟨p.2, by simp [dictLookup, hp]⟩
    · have : k ∈ rest.map Prod.fst := by
        rcases List.mem_cons.mp h with h1 | h1
        · exact absurd h1.symm hp
        · exact h1
      obtain ⟨v, hv⟩ := ih this
      exact ⟨v, by simp [dictLookup, hp, hv]⟩

/-- C4: `_delete_by_id` — a 204 response removes the (type name, id) entry
from the State Store; a 404 response does not raise, warns (when warnings
are not suppressed) and still removes the entry; any other non-204 status
(for a JSON-object response body) raises `DeletionFailed` and leaves the
State Store untouched. -/
theorem delete_by_id_status_policy (cls : ResourceClass) (client : AdoClient)
    (session : Session) (url resource_id : String) :
    ((session (deleteCall client url)).status_code = 204 →
      (StateManagedResource.delete_by_id cls client session url resource_id).result = .ok ()
      ∧ (StateManagedResource.delete_by_id cls client session url resource_id).state
        = client.state_manager.remove_resource_from_state cls.name resource_id)
    ∧ ((session (deleteCall client url)).status_code = 404 →
      (StateManagedResource.delete_by_id cls client session url resource_id).result = .ok ()
      ∧ (StateManagedResource.delete_by_id cls client session url resource_id).state
        = client.state_manager.remove_resource_from_state cls.name resource_id
      ∧ (client.suppress_warnings = false →
          (StateManagedResource.delete_by_id cls client session url resource_id).warnings
          ≠ []))
    ∧ (∀ d : List (String × PyVal),
        (session (deleteCall client url)).status_code ≠ 204 →
        (session (deleteCall client url)).status_code ≠ 404 →
        (session (deleteCall client url)).jsonBody = .vDict d →
        (∃ m : String, (StateManagedResource.delete_by_id cls client session url
            resource_id).result = .error (.deletionFailed m))
        ∧ (StateManagedResource.delete_by_id cls client session url resource_id).state
          = client.state_manager) := by
  refine ⟨?_, ?_, ?_⟩
  · intro h204
    constructor <;> simp [StateManagedResource.delete_by_id, h204]
  · intro h404
    have hne : (session (deleteCall client url)).status_code ≠ 204 := by
      rw [h404]; decide
    refine ⟨?_, ?_, ?_⟩
    · simp [StateManagedResource.delete_by_id, h404, hne]
    · simp [StateManagedResource.delete_by_id, h404, hne]
    · intro hw
      simp [StateManagedResource.delete_by_id, h404, hne, hw]
  · intro d hne hne404 hbody
    rw [StateManagedResource.delete_by_id]
    simp only [hbody, pyInJson]
    by_cases hmem : "message" ∈ d.map Prod.fst
    · have hdec := decide_eq_true hmem
      obtain ⟨m, hm⟩ := dictLookup_isSome_of_mem hmem
      constructor
      · exact ⟨"[ADO_WRAPPER] Error deleting " ++ cls.name ++ " (" ++ resource_id ++
          "): " ++ pyScalarStr m, by simp [hdec, hm, hne, hne404]⟩
      · simp [hdec, hm, hne, hne404]
    · have hdec := decide_eq_false hmem
      constructor
      · exact ⟨"[ADO_WRAPPER] Error deleting " ++ cls.name ++ " (" ++ resource_id ++
          "): " ++ (session (deleteCall client url)).text, by simp [hdec, hne, hne404]⟩
      · simp [hdec, hne, hne404]

/-- Witness for C4 at concrete inputs: a 404 delete succeeds and removes the
entry; a 500 delete fails and keeps the store. -/
theorem delete_by_id_status_policy_witness :
    (sessionConst ⟨404, "", .vDict []⟩ (deleteCall client0 "/u")).status_code = 404
    ∧ (StateManagedResource.delete_by_id RepoClass client0
        (sessionConst ⟨404, "", .vDict []⟩) "/u" "1").result = .ok ()
    ∧ (StateManagedResource.delete_by_id RepoClass client0
        (sessionConst ⟨500, "boom", .vDict []⟩) "/u" "1").state = client0.state_manager := by
  refine ⟨rfl, ?_, ?_⟩
  · exact ((delete_by_id_status_policy RepoClass client0
      (sessionConst ⟨404, "", .vDict []⟩) "/u" "1").2.1 rfl).1
  · exact ((delete_by_id_status_policy RepoClass client0
      (sessionConst ⟨500, "boom", .vDict []⟩) "/u" "1").2.2 [] (by decide) (by decide) rfl).2

/-- C6: `_get_by_url` — a 404 response raises `ResourceNotFound` with a
message naming the resource type; any other status ≥ 300 raises a generic
`ValueError` whose message includes the response body text. -/
theorem get_by_url_error_classification (cls : ResourceClass) (client : AdoClient)
    (session : Session) (url : String) :
    ((session (getCall client url)).status_code = 404 →
      StateManagedResource.get_by_url cls client session url
        = .error (.resourceNotFound ("No " ++ cls.name ++ " found with that identifier!"))
      ∧ strContains ("No " ++ cls.name ++ " found with that identifier!") cls.name)
    ∧ ((session (getCall client url)).status_code ≠ 404 →
        300 ≤ (session (getCall client url)).status_code →
      StateManagedResource.get_by_url cls client session url
        = .error (.valueError ("Error getting " ++ cls.name ++ " by id: "
            ++ (session (getCall client url)).text))
      ∧ strContains ("Error getting " ++ cls.name ++ " by id: "
          ++ (session (getCall client url)).text) (session (getCall client url)).text) := by
  constructor
  · intro h404
    refine ⟨?_, ?_⟩
    · simp [StateManagedResource.get_by_url, h404]
    · exact strContains_sandwich "No " cls.name " found with that identifier!"
  · intro hne h300
    refine ⟨?_, ?_⟩
    · simp [StateManagedResource.get_by_url, hne, h300]
    · exact strContains_right ("Error getting " ++ cls.name ++ " by id: ") _

/-- Witness for C6: a 404 stub raises not-found; a 500 stub raises the
generic error carrying the body. -/
theorem get_by_url_error_classification_witness :
    (sessionConst ⟨404, "", .vNone⟩ (getCall client0 "/u")).status_code = 404
    ∧ StateManagedResource.get_by_url RepoClass client0 (sessionConst ⟨404, "", .vNone⟩) "/u"
        = .error (.resourceNotFound "No Repo found with that identifier!")
    ∧ StateManagedResource.get_by_url RepoClass client0 (sessionConst ⟨500, "oops", .vNone⟩) "/u"
        = .error (.valueError "Error getting Repo by id: oops") := by
  refine ⟨rfl, ?_, ?_⟩
  · have h := (get_by_url_error_classification RepoClass client0
      (sessionConst ⟨404, "", .vNone⟩) "/u").1 rfl
    exact h.1
  · have h := (get_by_url_error_classification RepoClass client0
      (sessionConst ⟨500, "oops", .vNone⟩) "/u").2 (by decide) (by decide)
    exact h.1

/-- C9: a 200 response whose JSON body is `{"value": []}` drives
`_get_by_url` into the unguarded `request.json()["value"][0]` index on an
empty list; the total embedding returns the `crash` error (Python raises
`IndexError`) instead of any resource or not-found error. -/
theorem get_by_url_empty_value_crashes (cls : ResourceClass) (client : AdoClient)
    (session : Session) (url : String)
    (h200 : (session (getCall client url)).status_code = 200)
    (hbody : (session (getCall client url)).jsonBody = .vDict [("value", .vList [])]) :
    StateManagedResource.get_by_url cls client session url = .error .crash := by
  rw [StateManagedResource.get_by_url]
  simp [h200, hbody, pyInJson, dictLookup, pyIndex0]

/-- Witness for C9 at a concrete stub. -/
theorem get_by_url_empty_value_crashes_witness :
    (sessionConst ⟨200, "", .vDict [("value", .vList [])]⟩ (getCall client0 "/u")).status_code
      = 200
    ∧ StateManagedResource.get_by_url RepoClass client0
        (sessionConst ⟨200, "", .vDict [("value", .vList [])]⟩) "/u" = .error .crash := by
  exact ⟨rfl, get_by_url_empty_value_crashes RepoClass client0
    (sessionConst ⟨200, "", .vDict [("value", .vList [])]⟩) "/u" rfl rfl⟩

/-- The raised error (if any) is `InvalidPermissionsError` (the spec's
PermissionDenied). -/
def isInvalidPermissions {α : Type} : Except AdoError α → Bool
  | .error (.invalidPermissions _) => true
  | _ => false

/-- The call raised an error. -/
def isError {α : Type} : Except AdoError α → Bool
  | .error _ => true
  | .ok _ => false

/-- Counterexample to C7: a 401 response to `_update` (editable attribute,
plan mode off) raises `UpdateFailed`, not the PermissionDenied class. -/
theorem update_401_raises_update_failed_not_permission_denied :
    (StateManagedResource.update RepoClass repoInstance client0
        (sessionConst ⟨401, "denied", .vDict []⟩) "patch" "/u" "name" (.vStr "x") []).result
      = .error (.updateFailed (updateFailedMsg RepoClass repoInstance "name" (.vStr "x")
          "denied"))
    ∧ isInvalidPermissions (StateManagedResource.update RepoClass repoInstance client0
        (sessionConst ⟨401, "denied", .vDict []⟩) "patch" "/u" "name" (.vStr "x") []).result
      = false := by
  constructor
  · rw [StateManagedResource.update]
    simp [sessionConst, client0]
    rw [if_pos (by decide : (List.map Prod.fst RepoClass.editableFields).contains "name"
      = true)]
  · rw [StateManagedResource.update]
    simp [sessionConst, client0, isInvalidPermissions]
    rw [if_pos (by decide : (List.map Prod.fst RepoClass.editableFields).contains "name"
      = true)]

/-- C7 amended: a 401/403 response raises the PermissionDenied class
(`InvalidPermissionsError`) only on `_create`; `_update` raises
`UpdateFailed` and `_delete_by_id` raises `DeletionFailed` for the same
statuses. -/
theorem permission_status_classification_per_operation (cls : ResourceClass)
    (client : AdoClient) (session : Session) (url : String)
    (payload : Option (List (String × PyVal))) (refetch : Bool)
    (getById : String → Except AdoError PyVal) (self : PyVal)
    (update_action url2 attribute_name : String) (attribute_value : PyVal)
    (params : List (String × PyVal)) (resource_id : String)
    (hplan : client.plan_mode = false) :
    (((session (postCall client url payload)).status_code = 401
        ∨ (session (postCall client url payload)).status_code = 403) →
      (StateManagedResource.create cls client session url payload refetch getById).result
        = .error (.invalidPermissions ("You do not have permission to create this "
            ++ cls.name ++ "! " ++ (session (postCall client url payload)).text)))
    ∧ ((cls.editableFields.map Prod.fst).contains attribute_name = true →
       ((session (updateCall cls client update_action url2 attribute_name attribute_value
            params)).status_code = 401
        ∨ (session (updateCall cls client update_action url2 attribute_name attribute_value
            params)).status_code = 403) →
      (StateManagedResource.update cls self client session update_action url2
          attribute_name attribute_value params).result
        = .error (.updateFailed (updateFailedMsg cls self attribute_name attribute_value
            (session (updateCall cls client update_action url2 attribute_name
              attribute_value params)).text)))
    ∧ (∀ d : List (String × PyVal),
       ((session (deleteCall client url)).status_code = 401
        ∨ (session (deleteCall client url)).status_code = 403) →
       (session (deleteCall client url)).jsonBody = .vDict d →
      ∃ m : String, (StateManagedResource.delete_by_id cls client session url
          resource_id).result = .error (.deletionFailed m)) := by
  refine ⟨?_, ?_, ?_⟩
  · intro hst
    have h300 : 300 ≤ (session (postCall client url payload)).status_code := by
      rcases hst with h | h <;> omega
    have h409 : (session (postCall client url payload)).status_code ≠ 409 := by
      rcases hst with h | h <;> omega
    rw [StateManagedResource.create]
    simp [hplan, h300, hst, h409]
  · intro hattr hst
    have hne : (session (updateCall cls client update_action url2 attribute_name
        attribute_value params)).status_code ≠ 200 := by
      rcases hst with h | h <;> omega
    simp only [StateManagedResource.update, hattr]
    simp [hplan, hne]
  · intro d hst hbody
    have hne204 : (session (deleteCall client url)).status_code ≠ 204 := by
      rcases hst with h | h <;> omega
    have hne404 : (session (deleteCall client url)).status_code ≠ 404 := by
      rcases hst with h | h <;> omega
    rw [StateManagedResource.delete_by_id]
    simp only [hbody, pyInJson]
    by_cases hmem : "message" ∈ d.map Prod.fst
    · have hdec := decide_eq_true hmem
      obtain ⟨m, hm⟩ := dictLookup_isSome_of_mem hmem
      exact ⟨"[ADO_WRAPPER] Error deleting " ++ cls.name ++ " (" ++ resource_id ++
        "): " ++ pyScalarStr m, by simp [hdec, hm, hne204, hne404]⟩
    · have hdec := decide_eq_false hmem
      exact ⟨"[ADO_WRAPPER] Error deleting " ++ cls.name ++ " (" ++ resource_id ++
        "): " ++ (session (deleteCall client url)).text, by simp [hdec, hne204, hne404]⟩

/-- Witness for the amended C7 at concrete 401 stubs. -/
theorem permission_status_classification_per_operation_witness :
    client0.plan_mode = false
    ∧ (sessionConst ⟨401, "no", .vDict []⟩ (postCall client0 "/u" none)).status_code = 401
    ∧ (StateManagedResource.create RepoClass client0 (sessionConst ⟨401, "no", .vDict []⟩)
        "/u" none false (fun _ => .error .crash)).result
      = .error (.invalidPermissions "You do not have permission to create this Repo! no")
    ∧ ∃ m : String, (StateManagedResource.delete_by_id RepoClass client0
        (sessionConst ⟨401, "no", .vDict []⟩) "/u" "1").result
      = .error (.deletionFailed m) := by
  have h := permission_status_classification_per_operation RepoClass client0
    (sessionConst ⟨401, "no", .vDict []⟩) "/u" none false (fun _ => .error .crash)
    repoInstance "patch" "/u2" "name" (.vStr "x") [] "1" rfl
  exact ⟨rfl, rfl, h.1 (Or.inl rfl), h.2.2 [] (Or.inl rfl) rfl⟩

/-- Upserted entries are found in the State Store. -/
theorem lookupPairKey_upsert (kind rid : String) (json : List (String × PyVal))
    (l : List ((String × String) × List (String × PyVal))) :
    lookupPairKey kind rid (upsertPairKey kind rid json l) = some json := by
  induction l with
  | nil => simp [upsertPairKey, lookupPairKey]
  | cons p rest ih =>
    by_cases hp : p.1 = (kind, rid)
    · simp [upsertPairKey, lookupPairKey, hp]
    · simp [upsertPairKey, lookupPairKey, hp, ih]

/-- The `Repo` instance decoded from the payload `{"id": "42", "name": "x"}`. -/
def repo42 : PyVal :=
  .vRes "Repo" [("repo_id", .vStr "42"), ("name", .vStr "x"),
    ("default_branch", .vStr "main"), ("is_disabled", .vBool false)]

/-- C5: a `_create` whose POST succeeds (status < 300) with payload
`{"id": "42", "name": "x"}` returns the decoded resource, and the State
Store afterwards maps the key (type name, "42") to the resource's serialized
JSON, whose `name` field equals `"x"`. -/
theorem create_success_upserts_state (client : AdoClient) (session : Session)
    (url : String) (payload : Option (List (String × PyVal)))
    (hplan : client.plan_mode = false)
    (hstatus : (session (postCall client url payload)).status_code < 300)
    (hbody : (session (postCall client url payload)).jsonBody
      = .vDict [("id", .vStr "42"), ("name", .vStr "x")]) :
    (StateManagedResource.create RepoClass client session url payload false
        (fun _ => .error .crash)).result = .ok repo42
    ∧ (StateManagedResource.create RepoClass client session url payload false
        (fun _ => .error .crash)).state.get "Repo" "42"
      = some (StateManagedResource.to_json repo42)
    ∧ dictLookup "name" (StateManagedResource.to_json repo42) = some (.vStr "x") := by
  have hlt : ¬ 300 ≤ (session (postCall client url payload)).status_code := by omega
  have hsw : "main".startsWith "refs/heads/" = false := by decide
  have hdecode : Repo.from_request_payload
      (.vDict [("id", .vStr "42"), ("name", .vStr "x")]) = .ok repo42 := by
    simp [Repo.from_request_payload, dictLookup, stripRefsHeads, hsw, pyBool, repo42]
  have hid : extract_id ⟨"Repo", "repo_id",
      [("name", "name"), ("default_branch", "defaultBranch"), ("is_disabled", "isDisabled")],
      Repo.from_request_payload⟩ repo42 = "42" := by decide
  refine ⟨?_, ?_, ?_⟩
  · rw [StateManagedResource.create]
    simp [hplan, hlt, hbody, RepoClass, hdecode]
  · rw [StateManagedResource.create]
    simp [hplan, hlt, hbody, RepoClass, hdecode, hid, StateManager.get,
      StateManager.add_resource_to_state, lookupPairKey_upsert]
  · simp [StateManagedResource.to_json, repo42, toJsonFields,
      recursively_convert_to_json, pyScalarStr, dictLookup]

/-- Witness for C5 at a concrete stub collaborator. -/
theorem create_success_upserts_state_witness :
    client0.plan_mode = false
    ∧ (sessionConst ⟨201, "", .vDict [("id", .vStr "42"), ("name", .vStr "x")]⟩
        (postCall client0 "/u" none)).status_code < 300
    ∧ (StateManagedResource.create RepoClass client0
        (sessionConst ⟨201, "", .vDict [("id", .vStr "42"), ("name", .vStr "x")]⟩)
        "/u" none false (fun _ => .error .crash)).result = .ok repo42
    ∧ (StateManagedResource.create RepoClass client0
        (sessionConst ⟨201, "", .vDict [("id", .vStr "42"), ("name", .vStr "x")]⟩)
        "/u" none false (fun _ => .error .crash)).state.get "Repo" "42"
      = some (StateManagedResource.to_json repo42) := by
  have h := create_success_upserts_state client0
    (sessionConst ⟨201, "", .vDict [("id", .vStr "42"), ("name", .vStr "x")]⟩)
    "/u" none rfl (by decide) rfl
  exact ⟨rfl, by decide, h.1, h.2.1⟩

/-- A value hitting the `str()` fallback of `recursively_convert_to_json`:
not a dict, not a list, not a `datetime`, not a resource instance. -/
def isScalar : PyVal → Bool
  | .vStr _ | .vBool _ | .vInt _ | .vNone => true
  | _ => false

/-- A key without the `::` marker is skipped by the decode loop. -/
theorem fromJsonStep_of_single {key : String} (h : (splitKey key).length = 1)
    (value : PyVal) (dataCopy : List (String × PyVal)) :
    fromJsonStep key value dataCopy = dataCopy := by
  rw [fromJsonStep]
  rcases hk : splitKey key with _ | ⟨a, _ | ⟨b, _ | ⟨c, tl⟩⟩⟩ <;>
    simp [hk] at h ⊢

/-- C8: a field value that is not a dict, list, datetime or resource is
encoded as `str(value)` under the unchanged key; booleans and `None` are
persisted as `"False"`/`"True"`/`"None"`, and decoding (for a marker-free
field name) returns the string unchanged, so non-string scalars come back as
strings, not as their original type. -/
theorem scalar_values_stringified (attribute_name : String) (v : PyVal)
    (hscalar : isScalar v = true)
    (hname : (splitKey attribute_name).length = 1) :
    recursively_convert_to_json attribute_name v
      = (attribute_name, .vStr (pyScalarStr v))
    ∧ recursively_convert_from_json [(attribute_name, .vStr (pyScalarStr v))]
      = [(attribute_name, .vStr (pyScalarStr v))]
    ∧ pyScalarStr (.vBool false) = "False" ∧ pyScalarStr (.vBool true) = "True"
    ∧ pyScalarStr .vNone = "None"
    ∧ (isScalar (.vStr "w") = true ∧ pyEq (.vStr (pyScalarStr v)) v = false
        ∨ (∃ s, v = .vStr s)) := by
  refine ⟨?_, ?_, rfl, rfl, rfl, ?_⟩
  · cases v <;> simp_all [isScalar, recursively_convert_to_json]
  · rw [recursively_convert_from_json, fromJsonLoop,
      fromJsonStep_of_single hname, fromJsonLoop]
  · cases v with
    | vStr s => exact Or.inr ⟨s, rfl⟩
    | vBool b => exact Or.inl ⟨rfl, by rw [pyEq.eq_def]⟩
    | vInt n => exact Or.inl ⟨rfl, by rw [pyEq.eq_def]⟩
    | vNone => exact Or.inl ⟨rfl, by rw [pyEq.eq_def]⟩
    | vDatetime d => simp [isScalar] at hscalar
    | vList xs => simp [isScalar] at hscalar
    | vDict d => simp [isScalar] at hscalar
    | vRes c f => simp [isScalar] at hscalar

/-- Witness for C8: the boolean field value `False` round-trips to the
string `"False"`, which is not `pyEq`-equal to the boolean. -/
theorem scalar_values_stringified_witness :
    isScalar (.vBool false) = true
    ∧ (splitKey "is_disabled").length = 1
    ∧ recursively_convert_to_json "is_disabled" (.vBool false)
      = ("is_disabled", .vStr "False") := by
  refine ⟨rfl, by decide, ?_⟩
  exact (scalar_values_stringified "is_disabled" (.vBool false) rfl (by decide)).1

/-! Round-trip analysis: well-formedness of resource instances and the
behaviour of the decode loop on `to_json` output. -/

/-- A marker-free name: real dataclass field names and resource class names
contain no colon, so no `::` marker can occur in or around them. -/
def noColon (s : String) : Prop := ':' ∉ s.data

instance (s : String) : Decidable (noColon s) :=
  inferInstanceAs (Decidable (':' ∉ s.data))

/-- Splitting a colon-free character list gives one part. -/
theorem splitOnColons_of_noColon {l : List Char} (h : ':' ∉ l) :
    splitOnColons l = [l] := by
  induction l with
  | nil => rfl
  | cons c rest ih =>
    have hc : c ≠ ':' := fun hc => h (hc ▸ List.mem_cons_self c rest)
    have hrest : ':' ∉ rest := fun hr => h (List.mem_cons_of_mem c hr)
    cases rest with
    | nil => rfl
    | cons c2 tl =>
      rw [splitOnColons]
      rw [if_neg (fun hand => hc hand.1)]
      rw [ih hrest]

/-- Splitting `l ++ "::" ++ m` for colon-free `l` peels off `l`. -/
theorem splitOnColons_append {l : List Char} (m : List Char) (h : ':' ∉ l) :
    splitOnColons (l ++ ':' :: ':' :: m) = l :: splitOnColons m := by
  induction l with
  | nil => rw [List.nil_append, splitOnColons, if_pos ⟨rfl, rfl⟩]
  | cons c rest ih =>
    have hc : c ≠ ':' := fun hc => h (hc ▸ List.mem_cons_self c rest)
    have hrest : ':' ∉ rest := fun hr => h (List.mem_cons_of_mem c hr)
    cases rest with
    | nil =>
      rw [List.cons_append, List.nil_append, splitOnColons,
        if_neg (fun hand => hc hand.1), splitOnColons, if_pos ⟨rfl, rfl⟩]
    | cons c2 tl =>
      rw [List.cons_append, List.cons_append, splitOnColons,
        if_neg (fun hand => hc hand.1)]
      rw [List.cons_append] at ih
      rw [ih hrest]

/-- A colon-free key splits into one part. -/
theorem splitKey_untagged {n : String} (h : noColon n) : splitKey n = [n] := by
  unfold splitKey
  rw [splitOnColons_of_noColon h]
  rfl

/-- A datetime-tagged key with colon-free name splits as `[n, "datetime"]`. -/
theorem splitKey_datetime {n : String} (h : noColon n) :
    splitKey (n ++ "::datetime") = [n, "datetime"] := by
  unfold splitKey
  have hdata : (n ++ "::datetime").data = n.data ++ ':' :: ':' :: "datetime".data := by
    rw [String.data_append]
  rw [hdata, splitOnColons_append _ h,
    splitOnColons_of_noColon (by decide : ':' ∉ "datetime".data)]
  rfl

/-- A class-tagged key with colon-free name and class splits as `[n, c]`. -/
theorem splitKey_class {n c : String} (hn : noColon n) (_hc : noColon c) :
    splitKey (n ++ "::" ++ c) = [n, c] := by
  unfold splitKey
  have hdata : (n ++ "::" ++ c).data = n.data ++ ':' :: ':' :: c.data := by
    rw [String.data_append, String.data_append, List.append_assoc]
    rfl
  rw [hdata, splitOnColons_append _ hn, splitOnColons_of_noColon _hc]
  rfl

/-- Tagged keys contain a colon. -/
theorem colon_mem_append_datetime (n : String) :
    ':' ∈ (n ++ "::datetime").data := by
  rw [String.data_append]
  exact List.mem_append_right _ (by decide)

/-- Class-tagged keys contain a colon. -/
theorem colon_mem_append_class (n c : String) :
    ':' ∈ (n ++ "::" ++ c).data := by
  rw [String.data_append, String.data_append]
  exact List.mem_append_left _ (List.mem_append_right _ (by decide))

/-! Dict-operation lemmas. -/

/-- Erasing an absent key is the identity. -/
theorem dictErase_of_not_mem {k : String} {l : List (String × PyVal)}
    (h : k ∉ l.map Prod.fst) : dictErase k l = l := by
  induction l with
  | nil => rfl
  | cons p rest ih =>
    have hp : p.1 ≠ k := fun he => h (by simp [he])
    rw [dictErase.eq_def]
    cases p with
    | mk a b =>
      simp only at hp
      simp [hp, ih (fun hm => h (by simp [hm]))]

/-- Erasing the head key drops the head. -/
theorem dictErase_head (k : String) (v : PyVal) (l : List (String × PyVal)) :
    dictErase k ((k, v) :: l) = l := by
  simp [dictErase]

/-- Erase commutes over a non-matching head. -/
theorem dictErase_cons_ne {k : String} {p : String × PyVal} (l : List (String × PyVal))
    (h : p.1 ≠ k) : dictErase k (p :: l) = p :: dictErase k l := by
  cases p with
  | mk a b =>
    simp only at h
    simp [dictErase, h]

/-- Erase commutes over an appended singleton with a different key. -/
theorem dictErase_append_singleton {k : String} {x : String × PyVal}
    (l : List (String × PyVal)) (h : k ≠ x.1) :
    dictErase k (l ++ [x]) = dictErase k l ++ [x] := by
  induction l with
  | nil =>
    cases x with
    | mk a b =>
      simp only at h
      simp [dictErase, Ne.symm h]
  | cons p rest ih =>
    by_cases hp : p.1 = k
    · cases p with
      | mk a b =>
        subst hp
        simp [dictErase]
    · rw [List.cons_append, dictErase_cons_ne _ hp, dictErase_cons_ne _ hp, ih,
        List.cons_append]

/-- Setting an absent key appends the entry. -/
theorem dictSet_of_not_mem {k : String} (v : PyVal) {l : List (String × PyVal)}
    (h : k ∉ l.map Prod.fst) : dictSet k v l = l ++ [(k, v)] := by
  induction l with
  | nil => rfl
  | cons p rest ih =>
    have hp : p.1 ≠ k := fun he => h (by simp [he])
    cases p with
    | mk a b =>
      simp only at hp
      simp [dictSet, hp, ih (fun hm => h (by simp [hm]))]

/-- The keys of an erased dict are among the original keys. -/
theorem mem_keys_of_mem_keys_dictErase {k k' : String} {l : List (String × PyVal)}
    (h : k' ∈ (dictErase k l).map Prod.fst) : k' ∈ l.map Prod.fst := by
  induction l with
  | nil =>
    rw [dictErase] at h
    exact h
  | cons p rest ih =>
    by_cases hp : p.1 = k
    · rcases p with ⟨a, b⟩
      simp only at hp
      subst hp
      rw [dictErase_head] at h
      simp only [List.map_cons, List.mem_cons]
      exact Or.inr h
    · rw [dictErase_cons_ne _ hp] at h
      simp only [List.map_cons, List.mem_cons] at h ⊢
      rcases h with h | h
      · exact Or.inl h
      · exact Or.inr (ih h)

/-- Sequential erasure of a list of keys (the accumulated effect of the
decode loop's `del data_copy[key]` operations). -/
def removeKeys : List String → List (String × PyVal) → List (String × PyVal)
  | [], l => l
  | k :: ks, l => removeKeys ks (dictErase k l)

/-- Removing keys all different from an appended entry's key commutes with
the append. -/
theorem removeKeys_append_singleton {ks : List String} {x : String × PyVal}
    (l : List (String × PyVal)) (h : ∀ k ∈ ks, k ≠ x.1) :
    removeKeys ks (l ++ [x]) = removeKeys ks l ++ [x] := by
  induction ks generalizing l with
  | nil => rfl
  | cons k ks ih =>
    rw [removeKeys, removeKeys,
      dictErase_append_singleton l (h k (List.mem_cons_self k ks))]
    exact ih _ (fun k' hk' => h k' (List.mem_cons_of_mem k hk'))

/-- Removing keys all different from a head entry's key commutes over the
head. -/
theorem removeKeys_cons_ne {ks : List String} {p : String × PyVal}
    (l : List (String × PyVal)) (h : ∀ k ∈ ks, k ≠ p.1) :
    removeKeys ks (p :: l) = p :: removeKeys ks l := by
  induction ks generalizing l with
  | nil => rfl
  | cons k ks ih =>
    rw [removeKeys, dictErase_cons_ne _ (Ne.symm (h k (List.mem_cons_self k ks))),
      removeKeys]
    exact ih _ (fun k' hk' => h k' (List.mem_cons_of_mem k hk'))

/-! Well-formedness of resource instances for the amended round-trip. -/

/-- A "flat" value: a string, a list of strings, or a dict with string
values and distinct keys — encoded identically to itself and untouched by
the decode loop. -/
def FlatVal : PyVal → Prop
  | .vStr _ => True
  | .vList xs => ∀ x ∈ xs, ∃ s, x = PyVal.vStr s
  | .vDict d => ((d.map Prod.fst).Nodup ∧ ∀ p ∈ d, ∃ s, p.2 = PyVal.vStr s)
  | _ => False

/-- A well-formed field value: flat, a datetime, or a nested resource whose
class name is marker-free and not the literal `datetime` and whose own
fields are marker-free-named strings with distinct names. -/
def FieldWF : PyVal → Prop
  | .vDatetime _ => True
  | .vRes c g => noColon c ∧ c ≠ "datetime" ∧ (g.map Prod.fst).Nodup ∧
      ∀ p ∈ g, noColon p.1 ∧ ∃ s, p.2 = PyVal.vStr s
  | v => FlatVal v

/-- A well-formed resource instance: distinct marker-free field names with
well-formed values. -/
def ResourceWF (flds : List (String × PyVal)) : Prop :=
  (flds.map Prod.fst).Nodup ∧ ∀ p ∈ flds, noColon p.1 ∧ FieldWF p.2

/-- Fields diverted through tagged keys by the encoder (datetimes and nested
resources); all other well-formed values keep their key and value. -/
def isTaggedField (p : String × PyVal) : Bool :=
  match p.2 with
  | .vDatetime _ => true
  | .vRes _ _ => true
  | _ => false

/-- One encoded field, `recursively_convert_to_json(name, value)`. -/
def encField (p : String × PyVal) : String × PyVal :=
  recursively_convert_to_json p.1 p.2

/-- Flat values are encoded to themselves. -/
theorem enc_flat {v : PyVal} (h : FlatVal v) (n : String) :
    recursively_convert_to_json n v = (n, v) := by
  cases v with
  | vStr s => rfl
  | vList xs =>
    rw [recursively_convert_to_json]
    have : convertListValues n xs = xs := by
      induction xs with
      | nil => rfl
      | cons x rest ih =>
        have hrest := fun y hy => h y (List.mem_cons_of_mem x hy)
        obtain ⟨s, rfl⟩ := h x (List.mem_cons_self x rest)
        rw [convertListValues, ih hrest]
        rfl
    rw [this]
  | vDict d =>
    rw [recursively_convert_to_json]
    have : convertDictValues d = d := by
      obtain ⟨-, h2⟩ := h
      induction d with
      | nil => rfl
      | cons p rest ih =>
        have hrest := fun q hq => h2 q (List.mem_cons_of_mem p hq)
        obtain ⟨s, hs⟩ := h2 p (List.mem_cons_self p rest)
        cases p with
        | mk a b =>
          simp only at hs
          subst hs
          rw [convertDictValues, ih hrest]
          rfl
    rw [this]
  | vBool b => cases h
  | vInt i => cases h
  | vNone => cases h
  | vDatetime d => cases h
  | vRes c f => cases h

/-- An entry of a dict with distinct keys is found by `dictLookup`. -/
theorem dictLookup_of_mem_nodup {p : String × PyVal} {l : List (String × PyVal)}
    (hmem : p ∈ l) (hnodup : (l.map Prod.fst).Nodup) : dictLookup p.1 l = some p.2 := by
  induction l with
  | nil => cases hmem
  | cons q rest ih =>
    have hnodup' := hnodup
    rw [List.map_cons, List.nodup_cons] at hnodup'
    rcases List.mem_cons.mp hmem with rfl | hmem'
    · cases p with
      | mk a b => simp [dictLookup]
    · have hq : ¬ q.1 = p.1 := by
        intro he
        exact hnodup'.1 (he ▸ List.mem_map_of_mem Prod.fst hmem')
      cases q with
      | mk a b =>
        simp only at hq
        rw [dictLookup, if_neg hq]
        exact ih hmem' hnodup'.2

/-- `pyEqEntries` holds when every entry of the first dict is found, with a
`pyEq`-equal value, in the second. -/
theorem pyEqEntries_of_forall {l d : List (String × PyVal)}
    (h : ∀ p ∈ l, ∃ w, dictLookup p.1 d = some w ∧ pyEq p.2 w = true) :
    pyEqEntries l d = true := by
  induction l with
  | nil => rw [pyEqEntries]
  | cons p rest ih =>
    obtain ⟨w, hw, hpw⟩ := h p (List.mem_cons_self p rest)
    cases p with
    | mk a b =>
      rw [pyEqEntries]
      simp only at hw
      rw [hw]
      simp only [hpw, Bool.true_and]
      exact ih (fun q hq => h q (List.mem_cons_of_mem _ hq))

/-- Python `==` is reflexive on string values. -/
theorem pyEq_vStr_refl (s : String) : pyEq (.vStr s) (.vStr s) = true := by
  rw [pyEq]
  simp

/-- Python `==` is reflexive on flat values. -/
theorem pyEq_flat_refl {v : PyVal} (h : FlatVal v) : pyEq v v = true := by
  cases v with
  | vStr s => exact pyEq_vStr_refl s
  | vList xs =>
    rw [pyEq]
    induction xs with
    | nil => rw [pyEqList]
    | cons x rest ih =>
      have hrest := fun y hy => h y (List.mem_cons_of_mem x hy)
      obtain ⟨s, rfl⟩ := h x (List.mem_cons_self x rest)
      rw [pyEqList, pyEq_vStr_refl, ih hrest]
      rfl
  | vDict d =>
    rw [pyEq, pyEqDict]
    simp only [Bool.and_eq_true, decide_eq_true_eq]
    refine ⟨trivial, pyEqEntries_of_forall (fun p hp => ?_)⟩
    obtain ⟨s, hs⟩ := h.2 p hp
    exact ⟨p.2, dictLookup_of_mem_nodup hp h.1, by rw [hs]; exact pyEq_vStr_refl s⟩
  | vBool b => cases h
  | vInt i => cases h
  | vNone => cases h
  | vDatetime d => cases h
  | vRes c f => cases h

/-- Python `==` is reflexive on well-formed field values. -/
theorem pyEq_fieldWF_refl {v : PyVal} (h : FieldWF v) : pyEq v v = true := by
  cases v with
  | vDatetime d =>
    rw [pyEq]
    simp
  | vRes c g =>
    obtain ⟨-, -, hnodup, hg⟩ := h
    rw [pyEq]
    simp only [Bool.and_eq_true, decide_eq_true_eq]
    refine ⟨trivial, ?_⟩
    rw [pyEqDict]
    simp only [Bool.and_eq_true, decide_eq_true_eq]
    refine ⟨trivial, pyEqEntries_of_forall (fun p hp => ?_)⟩
    obtain ⟨-, s, hs⟩ := hg p hp
    exact ⟨p.2, dictLookup_of_mem_nodup hp hnodup, by rw [hs]; exact pyEq_vStr_refl s⟩
  | vStr s => exact pyEq_flat_refl h
  | vList xs => exact pyEq_flat_refl h
  | vDict d => exact pyEq_flat_refl h
  | vBool b => cases h
  | vInt i => cases h
  | vNone => cases h

/-- The decode loop ignores items whose keys carry no `::` marker. -/
theorem fromJsonLoop_of_untagged_keys {items : List (String × PyVal)}
    (h : ∀ p ∈ items, (splitKey p.1).length = 1) (d : List (String × PyVal)) :
    fromJsonLoop items d = d := by
  induction items generalizing d with
  | nil => rw [fromJsonLoop]
  | cons p rest ih =>
    cases p with
    | mk key value =>
      rw [fromJsonLoop,
        fromJsonStep_of_single (h (key, value) (List.mem_cons_self _ _)) value d]
      exact ih (fun q hq => h q (List.mem_cons_of_mem _ hq)) d

/-- Encoding the fields of a string-only nested resource is the identity. -/
theorem toJsonFields_flat {g : List (String × PyVal)}
    (h : ∀ p ∈ g, noColon p.1 ∧ ∃ s, p.2 = PyVal.vStr s) : toJsonFields g = g := by
  induction g with
  | nil => rfl
  | cons p rest ih =>
    have hrest := fun q hq => h q (List.mem_cons_of_mem p hq)
    obtain ⟨-, s, hs⟩ := h p (List.mem_cons_self p rest)
    cases p with
    | mk a b =>
      simp only at hs
      subst hs
      rw [toJsonFields, ih hrest]
      rfl

/-- Decoding the encoded fields of a string-only nested resource is exact:
`recursively_convert_from_json(to_json(g)) = g`. -/
theorem nested_roundtrip_exact {g : List (String × PyVal)}
    (h : ∀ p ∈ g, noColon p.1 ∧ ∃ s, p.2 = PyVal.vStr s) :
    fromJsonLoop (toJsonFields g) (toJsonFields g) = g := by
  rw [toJsonFields_flat h]
  exact fromJsonLoop_of_untagged_keys
    (fun p hp => by rw [splitKey_untagged (h p hp).1]; rfl) g

/-- Decode-loop effect on a datetime-tagged item: delete the tagged entry,
store the parsed datetime under the plain name. -/
theorem fromJsonStep_datetime {n : String} (h : noColon n) (dt : Datetime)
    (dc : List (String × PyVal)) :
    fromJsonStep (n ++ "::datetime") (.vStr dt.iso) dc
      = dictSet n (.vDatetime dt) (dictErase (n ++ "::datetime") dc) := by
  rw [fromJsonStep, splitKey_datetime h]
  simp [pyFromIso]

/-- Decode-loop effect on a class-tagged item: delete the tagged entry,
store the reconstructed resource under the plain name. -/
theorem fromJsonStep_class {n c : String} (hn : noColon n) (hc : noColon c)
    (hne : c ≠ "datetime") (E dc : List (String × PyVal)) :
    fromJsonStep (n ++ "::" ++ c) (.vDict E) dc
      = dictSet n (.vRes c (fromJsonLoop E E)) (dictErase (n ++ "::" ++ c) dc) := by
  rw [fromJsonStep, splitKey_class hn hc]
  simp [hne, decodeTagged]

/-- The encoded key of a tagged well-formed field contains a colon. -/
theorem colon_mem_encKey_of_tagged {p : String × PyVal}
    (ht : isTaggedField p = true) : ':' ∈ (encField p).1.data := by
  cases p with
  | mk n v =>
    cases v with
    | vDatetime dt => exact colon_mem_append_datetime n
    | vRes c g => exact colon_mem_append_class n c
    | vStr s => simp [isTaggedField] at ht
    | vBool b => simp [isTaggedField] at ht
    | vInt i => simp [isTaggedField] at ht
    | vNone => simp [isTaggedField] at ht
    | vList xs => simp [isTaggedField] at ht
    | vDict d => simp [isTaggedField] at ht

/-- Main decode-loop specification on `to_json` output: untagged items leave
`data_copy` alone; each tagged item deletes its tagged entry and appends the
original field (name, value) pair, the decoded value being exactly the
original under well-formedness. -/
theorem fromJsonLoop_spec (rest : List (String × PyVal)) (d : List (String × PyVal))
    (hwf : ∀ p ∈ rest, noColon p.1 ∧ FieldWF p.2)
    (hnodup : (rest.map Prod.fst).Nodup)
    (hd : ∀ p ∈ rest, isTaggedField p = true → p.1 ∉ d.map Prod.fst) :
    fromJsonLoop (rest.map encField) d
      = removeKeys ((rest.filter isTaggedField).map (fun p => (encField p).1)) d
        ++ rest.filter isTaggedField := by
  induction rest generalizing d with
  | nil => simp [fromJsonLoop, removeKeys]
  | cons p rest' ih =>
    have hwf_p := hwf p (List.mem_cons_self p rest')
    have hwf' := fun q hq => hwf q (List.mem_cons_of_mem p hq)
    have hnodup' : (rest'.map Prod.fst).Nodup := by
      rw [List.map_cons, List.nodup_cons] at hnodup
      exact hnodup.2
    have hp_not_rest : p.1 ∉ rest'.map Prod.fst := by
      rw [List.map_cons, List.nodup_cons] at hnodup
      exact hnodup.1
    by_cases ht : isTaggedField p = true
    · -- tagged field: value is a datetime or a nested resource
      have hK : ':' ∈ (encField p).1.data := colon_mem_encKey_of_tagged ht
      have hstep : fromJsonStep (encField p).1 (encField p).2 d
          = dictSet p.1 p.2 (dictErase (encField p).1 d) := by
        rcases p with ⟨n, v⟩
        cases v with
        | vDatetime dt =>
          exact fromJsonStep_datetime hwf_p.1 dt d
        | vRes c g =>
          obtain ⟨hc, hcne, -, hg⟩ := hwf_p.2
          have hencf : encField (n, PyVal.vRes c g)
              = (n ++ "::" ++ c, .vDict (toJsonFields g)) := by
            rw [encField, recursively_convert_to_json]
          simp only [hencf]
          rw [fromJsonStep_class hwf_p.1 hc hcne, nested_roundtrip_exact hg]
        | vStr s => simp [isTaggedField] at ht
        | vBool b => simp [isTaggedField] at ht
        | vInt i => simp [isTaggedField] at ht
        | vNone => simp [isTaggedField] at ht
        | vList xs => simp [isTaggedField] at ht
        | vDict dd => simp [isTaggedField] at ht
      have hp_not_d : p.1 ∉ d.map Prod.fst := hd p (List.mem_cons_self p rest') ht
      have hp_not_erase : p.1 ∉ (dictErase (encField p).1 d).map Prod.fst :=
        fun hmem => hp_not_d (mem_keys_of_mem_keys_dictErase hmem)
      have hset : dictSet p.1 p.2 (dictErase (encField p).1 d)
          = dictErase (encField p).1 d ++ [(p.1, p.2)] :=
        dictSet_of_not_mem p.2 hp_not_erase
      have hd' : ∀ q ∈ rest', isTaggedField q = true →
          q.1 ∉ (dictErase (encField p).1 d ++ [(p.1, p.2)]).map Prod.fst := by
        intro q hq hqt hqmem
        rw [List.map_append] at hqmem
        rcases List.mem_append.mp hqmem with hm | hm
        · exact hd q (List.mem_cons_of_mem p hq) hqt (mem_keys_of_mem_keys_dictErase hm)
        · have : q.1 = p.1 := by simpa using hm
          exact hp_not_rest (this ▸ List.mem_map_of_mem Prod.fst hq)
      have hihq := ih (dictErase (encField p).1 d ++ [(p.1, p.2)]) hwf' hnodup' hd'
      have htk_ne : ∀ k ∈ (rest'.filter isTaggedField).map (fun q => (encField q).1),
          k ≠ (p.1, p.2).1 := by
        intro k hk he
        obtain ⟨q, hq, rfl⟩ := List.mem_map.mp hk
        have hqt : isTaggedField q = true := (List.mem_filter.mp hq).2
        have : ':' ∈ (encField q).1.data := colon_mem_encKey_of_tagged hqt
        rw [he] at this
        exact hwf_p.1 this
      calc fromJsonLoop ((p :: rest').map encField) d
          = fromJsonLoop (rest'.map encField)
              (fromJsonStep (encField p).1 (encField p).2 d) := by
            rw [List.map_cons, fromJsonLoop]
        _ = fromJsonLoop (rest'.map encField)
              (dictErase (encField p).1 d ++ [(p.1, p.2)]) := by rw [hstep, hset]
        _ = removeKeys ((rest'.filter isTaggedField).map (fun q => (encField q).1))
              (dictErase (encField p).1 d ++ [(p.1, p.2)])
            ++ rest'.filter isTaggedField := hihq
        _ = (removeKeys ((rest'.filter isTaggedField).map (fun q => (encField q).1))
              (dictErase (encField p).1 d) ++ [(p.1, p.2)])
            ++ rest'.filter isTaggedField := by
            rw [removeKeys_append_singleton _ htk_ne]
        _ = removeKeys (((p :: rest').filter isTaggedField).map (fun q => (encField q).1)) d
            ++ (p :: rest').filter isTaggedField := by
            rw [List.filter_cons_of_pos ht, List.map_cons, removeKeys]
            simp [List.append_assoc]
    · -- untagged field: flat value, identity item
      have htf : isTaggedField p = false := by
        cases hb : isTaggedField p
        · rfl
        · exact absurd hb ht
      have hflat : FlatVal p.2 := by
        rcases p with ⟨n, v⟩
        cases v with
        | vDatetime dt => simp [isTaggedField] at htf
        | vRes c g => simp [isTaggedField] at htf
        | vStr s => exact hwf_p.2
        | vBool b => exact hwf_p.2
        | vInt i => exact hwf_p.2
        | vNone => exact hwf_p.2
        | vList xs => exact hwf_p.2
        | vDict dd => exact hwf_p.2
      have henc : encField p = (p.1, p.2) := by
        rcases p with ⟨n, v⟩
        exact enc_flat hflat n
      have hd'' : ∀ q ∈ rest', isTaggedField q = true → q.1 ∉ d.map Prod.fst :=
        fun q hq hqt => hd q (List.mem_cons_of_mem p hq) hqt
      calc fromJsonLoop ((p :: rest').map encField) d
          = fromJsonLoop (rest'.map encField) (fromJsonStep p.1 p.2 d) := by
            rw [List.map_cons, fromJsonLoop, henc]
        _ = fromJsonLoop (rest'.map encField) d := by
            rw [fromJsonStep_of_single (by rw [splitKey_untagged hwf_p.1]; rfl) p.2 d]
        _ = removeKeys ((rest'.filter isTaggedField).map (fun q => (encField q).1)) d
            ++ rest'.filter isTaggedField := ih d hwf' hnodup' hd''
        _ = removeKeys (((p :: rest').filter isTaggedField).map (fun q => (encField q).1)) d
            ++ (p :: rest').filter isTaggedField := by
            rw [List.filter_cons_of_neg (by rw [htf]; exact Bool.false_ne_true)]

/-- Erasing the head entry by its own key drops it. -/
theorem dictErase_fst_head (x : String × PyVal) (l : List (String × PyVal)) :
    dictErase x.1 (x :: l) = l := by
  cases x with
  | mk a b => simp [dictErase]

/-- `to_json` is the map of `recursively_convert_to_json` over the fields. -/
theorem toJsonFields_eq_map (l : List (String × PyVal)) :
    toJsonFields l = l.map encField := by
  induction l with
  | nil => rfl
  | cons p rest ih =>
    cases p with
    | mk a b => rw [toJsonFields, ih, List.map_cons, encField]

/-- Entries of a dict with distinct keys are determined by their key. -/
theorem eq_of_mem_nodup_keys {p q : String × PyVal} {l : List (String × PyVal)}
    (hp : p ∈ l) (hq : q ∈ l) (hnodup : (l.map Prod.fst).Nodup) (heq : p.1 = q.1) :
    p = q := by
  induction l with
  | nil => cases hp
  | cons r rest ih =>
    rw [List.map_cons, List.nodup_cons] at hnodup
    rcases List.mem_cons.mp hp with rfl | hp' <;> rcases List.mem_cons.mp hq with rfl | hq'
    · rfl
    · exact absurd (heq ▸ List.mem_map_of_mem Prod.fst hq') hnodup.1
    · exact absurd (heq ▸ List.mem_map_of_mem Prod.fst hp') hnodup.1
    · exact ih hp' hq' hnodup.2

/-- Removing exactly the tagged encoded keys from the encoded field list
leaves the untagged fields (which encode to themselves). -/
theorem removeKeys_enc (flds : List (String × PyVal))
    (hwf : ∀ p ∈ flds, noColon p.1 ∧ FieldWF p.2) :
    removeKeys ((flds.filter isTaggedField).map (fun p => (encField p).1))
      (flds.map encField)
      = flds.filter (fun p => !(isTaggedField p)) := by
  induction flds with
  | nil => rfl
  | cons p rest ih =>
    have hwf_p := hwf p (List.mem_cons_self p rest)
    have hwf' := fun q hq => hwf q (List.mem_cons_of_mem p hq)
    by_cases ht : isTaggedField p = true
    · rw [List.filter_cons_of_pos ht, List.map_cons, List.map_cons, removeKeys,
        dictErase_fst_head, ih hwf',
        List.filter_cons_of_neg (by rw [ht]; exact (by decide))]
    · have htf : isTaggedField p = false := by
        cases hb : isTaggedField p
        · rfl
        · exact absurd hb ht
      have hflat : FlatVal p.2 := by
        rcases p with ⟨n, v⟩
        cases v with
        | vDatetime dt => simp [isTaggedField] at htf
        | vRes c g => simp [isTaggedField] at htf
        | vStr s => exact hwf_p.2
        | vBool b => exact hwf_p.2
        | vInt i => exact hwf_p.2
        | vNone => exact hwf_p.2
        | vList xs => exact hwf_p.2
        | vDict dd => exact hwf_p.2
      have henc : encField p = p := by
        rcases p with ⟨n, v⟩
        exact enc_flat hflat n
      have hcolons : ∀ k ∈ (rest.filter isTaggedField).map (fun q => (encField q).1),
          k ≠ p.1 := by
        intro k hk he
        obtain ⟨q, hq, rfl⟩ := List.mem_map.mp hk
        have hqt : isTaggedField q = true := (List.mem_filter.mp hq).2
        have : ':' ∈ (encField q).1.data := colon_mem_encKey_of_tagged hqt
        rw [he] at this
        exact hwf_p.1 this
      rw [List.filter_cons_of_neg (by rw [htf]; exact Bool.false_ne_true),
        List.map_cons, henc,
        removeKeys_cons_ne _ hcolons, ih hwf',
        List.filter_cons_of_pos (by rw [htf]; rfl)]

/-- C1 amended: for a resource instance with distinct marker-free field
names whose values are strings, datetimes, string-only nested resources,
lists of strings, or dicts of strings, `from_json(to_json(r))` is
`==`-equal to `r` (Python equality: field-for-field, dicts compared as
maps); non-string scalar fields such as booleans are excluded, since they
are stringified (see the counterexample). -/
theorem from_json_to_json_roundtrip_wellformed (c : String)
    (flds : List (String × PyVal)) (h : ResourceWF flds) :
    pyEq (roundTrip (.vRes c flds)) (.vRes c flds) = true := by
  obtain ⟨hnodup, hwf⟩ := h
  rw [roundTrip, StateManagedResource.from_json, recursively_convert_from_json,
    toJsonFields_eq_map]
  have hd0 : ∀ p ∈ flds, isTaggedField p = true →
      p.1 ∉ (flds.map encField).map Prod.fst := by
    intro p hp hpt hmem
    rw [List.map_map] at hmem
    obtain ⟨q, hq, hqe0⟩ := List.mem_map.mp hmem
    have hqe : (encField q).1 = p.1 := hqe0
    by_cases hqt : isTaggedField q = true
    · have : ':' ∈ (encField q).1.data := colon_mem_encKey_of_tagged hqt
      rw [hqe] at this
      exact (hwf p hp).1 this
    · have hqflat : FlatVal q.2 := by
        have hqf : isTaggedField q = false := by
          cases hb : isTaggedField q
          · rfl
          · exact absurd hb hqt
        rcases q with ⟨n, v⟩
        cases v with
        | vDatetime dt => simp [isTaggedField] at hqf
        | vRes cc g => simp [isTaggedField] at hqf
        | vStr s => exact (hwf _ hq).2
        | vBool b => exact (hwf _ hq).2
        | vInt i => exact (hwf _ hq).2
        | vNone => exact (hwf _ hq).2
        | vList xs => exact (hwf _ hq).2
        | vDict dd => exact (hwf _ hq).2
      have hqid : encField q = q := by
        rcases q with ⟨n, v⟩
        exact enc_flat hqflat n
      rw [hqid] at hqe
      have : q = p := eq_of_mem_nodup_keys hq hp hnodup hqe
      rw [this] at hqt
      exact hqt hpt
  rw [fromJsonLoop_spec flds (flds.map encField) hwf hnodup hd0,
    removeKeys_enc flds hwf]
  have hperm : (flds.filter (fun p => !(isTaggedField p))
      ++ flds.filter isTaggedField).Perm flds :=
    List.perm_append_comm.trans (List.filter_append_perm isTaggedField flds)
  rw [pyEq]
  simp only [Bool.and_eq_true, decide_eq_true_eq]
  refine ⟨trivial, ?_⟩
  rw [pyEqDict]
  simp only [Bool.and_eq_true, decide_eq_true_eq]
  refine ⟨hperm.length_eq, pyEqEntries_of_forall (fun p hp => ?_)⟩
  have hpf : p ∈ flds := hperm.subset hp
  exact ⟨p.2, dictLookup_of_mem_nodup hpf hnodup, pyEq_fieldWF_refl (hwf p hpf).2⟩

/-- Counterexample to C1 as stated: the boolean field `is_disabled` of a
`Repo` instance is stringified by `to_json`, so `from_json(to_json(r))`
carries the string `"False"` where `r` has the boolean `False`, and the
round trip is not `==`-equal to `r`. -/
theorem roundtrip_fails_on_boolean_field :
    pyEq (roundTrip repoInstance) repoInstance = false
    ∧ dictLookup "is_disabled" (StateManagedResource.to_json repoInstance)
      = some (.vStr "False") := by
  constructor
  · simp [repoInstance, roundTrip, toJsonFields, recursively_convert_to_json, pyScalarStr,
      StateManagedResource.from_json, recursively_convert_from_json, fromJsonLoop,
      fromJsonStep, splitKey, splitOnColons, pyEq, pyEqList, pyEqDict, pyEqEntries,
      dictLookup]
  · simp [repoInstance, StateManagedResource.to_json, toJsonFields,
      recursively_convert_to_json, pyScalarStr, dictLookup]

/-- A populated resource exercising a nested resource field, a timestamp
field, a list field and a mapping field. -/
def richInstance : PyVal :=
  .vRes "Environment"
    [("environment_id", .vStr "9"),
     ("created_on", .vDatetime ⟨"2024-01-01T01:01:01"⟩),
     ("created_by", .vRes "Repo" [("repo_id", .vStr "1"), ("name", .vStr "r")]),
     ("tags", .vList [.vStr "a", .vStr "b"]),
     ("meta", .vDict [("k", .vStr "v")])]

/-- Witness for the amended C1: the rich instance is well-formed and its
round trip is `==`-equal to itself. -/
theorem from_json_to_json_roundtrip_wellformed_witness :
    ResourceWF
      [("environment_id", .vStr "9"),
       ("created_on", .vDatetime ⟨"2024-01-01T01:01:01"⟩),
       ("created_by", .vRes "Repo" [("repo_id", .vStr "1"), ("name", .vStr "r")]),
       ("tags", .vList [.vStr "a", .vStr "b"]),
       ("meta", .vDict [("k", .vStr "v")])]
    ∧ pyEq (roundTrip richInstance) richInstance = true := by
  have hwf : ResourceWF
      [("environment_id", .vStr "9"),
       ("created_on", .vDatetime ⟨"2024-01-01T01:01:01"⟩),
       ("created_by", .vRes "Repo" [("repo_id", .vStr "1"), ("name", .vStr "r")]),
       ("tags", .vList [.vStr "a", .vStr "b"]),
       ("meta", .vDict [("k", .vStr "v")])] := by
    refine ⟨by decide, ?_⟩
    intro p hp
    fin_cases hp
    · exact ⟨by decide, trivial⟩
    · exact ⟨by decide, trivial⟩
    · refine ⟨by decide, by decide, by decide, by decide, ?_⟩
      intro q hq
      fin_cases hq
      · exact ⟨by decide, "1", rfl⟩
      · exact ⟨by decide, "r", rfl⟩
    · refine ⟨by decide, ?_⟩
      intro x hx
      fin_cases hx
      · exact ⟨"a", rfl⟩
      · exact ⟨"b", rfl⟩
    · refine ⟨by decide, by decide, ?_⟩
      intro q hq
      fin_cases hq
      exact ⟨"v", rfl⟩
  exact ⟨hwf, from_json_to_json_roundtrip_wellformed "Environment" _ hwf⟩
